import Mathlib

/-!
Verification of the cyclomatic-complexity analyzer.

Shallow embedding of the repository sources:
  * `src/calculator.rs`            — namespace `Cy.Calc`
  * `src/cyclomatic.rs`            — namespace `Cy.Cyc`
  * `src/parsers/ast_graph_parser.rs` — namespace `Cy.AGP`
  * `src/parsers/rust_parser.rs`   — namespace `Cy.RP`
  * `src/bin/main.rs`              — namespace `Cy.Main`

The `syn` syntax-tree types are embedded as inductives covering exactly the
shape the analyzer inspects: every field the source code reads is present;
fields the code never touches are collapsed into opaque `Nat` tags (they only
feed the structural hash, where any injectively encoded payload is faithful).

Node identity: the source hashes each subtree with
`std::collections::hash_map::DefaultHasher` to a `u64` and compares hashes.
We model this by an injective structural encoding into `Nat` (a collision-free
deterministic hash): each constructor gets a distinct tag, combined with its
payload via the injective pairing `Nat.pair`.  This realises the source's
content-based identity exactly, minus the negligible hash-collision risk the
repository itself accepts.
-/

namespace Cy

mutual
/-- Embeds `syn::Expr`, restricted to the variants `rust_parser.rs` dispatches on
(Array, Assign, AssignOp, Block, Break, If) plus a catch-all for every other
variant (matched by `_ => {}` in the source).  A `syn::Block` is its list of
statements; `syn::ExprBlock` carries that block.  `syn::ExprIf` carries the
condition, the then-block and the optional else expression. -/
inductive Expr where
  | array (elems : List Expr)
  | assign (left right : Expr)
  | assignOp (left right : Expr)
  | blockE (b : List Stmt)
  | brkE (e : Option Expr)
  | ifE (cond : Expr) (thenBranch : List Stmt) (elseBranch : Option Expr)
  | otherE (tag : Nat)

/-- Embeds `syn::Stmt`: Local (let binding, with optional init expression),
Item (nested item, opaque), Expr (trailing expression) and Semi
(semicolon-terminated expression). -/
inductive Stmt where
  | localS (init : Option Expr)
  | itemS (tag : Nat)
  | exprS (e : Expr)
  | semiS (e : Expr)
end

/-- Embeds `syn::Block` is a brace-delimited list of statements. -/
abbrev Block := List Stmt

/-- Embeds `syn::UseTree`: `path` is `a::rest`, `nameT` a terminal identifier,
`renameT` an `a as b`, `glob` a `*`, `group` a `{...}` list. -/
inductive UseTree where
  | path (ident : String) (tree : UseTree)
  | nameT (ident : String)
  | renameT (ident ren : String)
  | glob
  | group (trees : List UseTree)

/-- Embeds `syn::Type`: a path type keeps its leading segment (syn paths are never
empty) plus the remaining segments; `tupleT` models e.g. `(A, B)`; everything
else is an opaque non-path type. -/
inductive Typ where
  | pathT (headSeg : String) (restSegs : List String)
  | tupleT (tags : List Nat)
  | otherT (tag : Nat)

mutual
/-- Embeds `syn::ImplItem`: only `Method` is ever inspected; the other associated
items (Const, Type, Macro, Verbatim) are opaque. -/
inductive ImplItem where
  | methodI (ident : String) (block : List Stmt)
  | constAssoc (tag : Nat)
  | typeAssoc (tag : Nat)
  | mcrAssoc (tag : Nat)
  | verbatimAssoc (tag : Nat)

/-- Embeds `syn::Item`, one constructor per variant of the source `match`es
(`ExternCrate`, `Use`, `Static`, `Const`, `Fn`, `Mod`, `ForeignMod`, `Type`,
`Struct`, `Enum`, `Union`, `Trait`, `TraitAlias`, `Impl`, `Macro`, `Macro2`,
`Verbatim`).  Fields the analyzer reads are explicit; the rest are tags. -/
inductive Item where
  | extCrateI (ident : String) (ren : Option String)
  | useI (tree : UseTree)
  | staticI (ident : String) (ty : Typ) (e : Expr)
  | constItemI (ident : String) (ty : Typ) (e : Expr)
  | fnI (ident : String) (block : List Stmt)
  | modI (ident : String) (content : Option (List Item))
  | foreignModI (fitems : List Nat)
  | typeI (tag : Nat)
  | structI (tag : Nat)
  | enumI (tag : Nat)
  | unionI (tag : Nat)
  | traitI (tag : Nat)
  | traitAliasI (tag : Nat)
  | implI (selfTy : Typ) (iitems : List ImplItem)
  | mcrI (tag : Nat)
  | mcr2I (tag : Nat)
  | verbatimI (tag : Nat)
end

/-- Embeds `syn::File`: its list of top-level items. -/
structure SynFile where
  items : List Item

/-! ### Structural hashing (`DefaultHasher` model)

`get_node` / the hashing half of `checked_update` map a subtree to a `u64`.
We encode each subtree injectively into `Nat` via `Nat.pair`; constructor
tags start at 1 so no identity collides with the sentinel parent id `0`. -/

/-- Injective encoding of a string (digits `c+1` in a base larger than any
scalar value). -/
def encodeString (s : String) : Nat :=
  s.data.foldl (fun n c => n * 1114113 + (c.toNat + 1)) 0

/-- Injective encoding of an optional encoded payload. -/
def encodeOpt : Option Nat → Nat
  | none => 0
  | some n => Nat.pair 1 n

/-- Injective encoding of a list of encoded payloads. -/
def encodeListAux : List Nat → Nat
  | [] => 0
  | n :: rest => Nat.pair 1 (Nat.pair n (encodeListAux rest))

def encodeNatList (l : List Nat) : Nat := encodeListAux l

def encodeStringList (l : List String) : Nat := encodeListAux (l.map encodeString)

mutual
def encodeExpr : Expr → Nat
  | .array elems => Nat.pair 1 (encodeExprList elems)
  | .assign l r => Nat.pair 2 (Nat.pair (encodeExpr l) (encodeExpr r))
  | .assignOp l r => Nat.pair 3 (Nat.pair (encodeExpr l) (encodeExpr r))
  | .blockE b => Nat.pair 4 (encodeStmtList b)
  | .brkE e => Nat.pair 5 (encodeExprOpt e)
  | .ifE c t els => Nat.pair 6 (Nat.pair (encodeExpr c) (Nat.pair (encodeStmtList t) (encodeExprOpt els)))
  | .otherE tag => Nat.pair 7 tag
def encodeExprOpt : Option Expr → Nat
  | none => 0
  | some e => Nat.pair 1 (encodeExpr e)
def encodeExprList : List Expr → Nat
  | [] => 0
  | e :: rest => Nat.pair 1 (Nat.pair (encodeExpr e) (encodeExprList rest))
def encodeStmt : Stmt → Nat
  | .localS init => Nat.pair 1 (encodeExprOpt init)
  | .itemS tag => Nat.pair 2 tag
  | .exprS e => Nat.pair 3 (encodeExpr e)
  | .semiS e => Nat.pair 4 (encodeExpr e)
def encodeStmtList : List Stmt → Nat
  | [] => 0
  | s :: rest => Nat.pair 1 (Nat.pair (encodeStmt s) (encodeStmtList rest))
end

mutual
def encodeUseTree : UseTree → Nat
  | .path ident tree => Nat.pair 1 (Nat.pair (encodeString ident) (encodeUseTree tree))
  | .nameT ident => Nat.pair 2 (encodeString ident)
  | .renameT ident ren => Nat.pair 3 (Nat.pair (encodeString ident) (encodeString ren))
  | .glob => Nat.pair 4 0
  | .group trees => Nat.pair 5 (encodeUseTreeList trees)
def encodeUseTreeList : List UseTree → Nat
  | [] => 0
  | t :: rest => Nat.pair 1 (Nat.pair (encodeUseTree t) (encodeUseTreeList rest))
end

def encodeTyp : Typ → Nat
  | .pathT h rest => Nat.pair 1 (Nat.pair (encodeString h) (encodeStringList rest))
  | .tupleT tags => Nat.pair 2 (encodeNatList tags)
  | .otherT tag => Nat.pair 3 tag

mutual
def encodeImplItem : ImplItem → Nat
  | .methodI ident block => Nat.pair 1 (Nat.pair (encodeString ident) (encodeStmtList block))
  | .constAssoc tag => Nat.pair 2 tag
  | .typeAssoc tag => Nat.pair 3 tag
  | .mcrAssoc tag => Nat.pair 4 tag
  | .verbatimAssoc tag => Nat.pair 5 tag
def encodeImplItemList : List ImplItem → Nat
  | [] => 0
  | i :: rest => Nat.pair 1 (Nat.pair (encodeImplItem i) (encodeImplItemList rest))
def encodeItem : Item → Nat
  | .extCrateI ident ren => Nat.pair 1 (Nat.pair (encodeString ident) (encodeOpt (ren.map encodeString)))
  | .useI tree => Nat.pair 2 (encodeUseTree tree)
  | .staticI ident ty e => Nat.pair 3 (Nat.pair (encodeString ident) (Nat.pair (encodeTyp ty) (encodeExpr e)))
  | .constItemI ident ty e => Nat.pair 4 (Nat.pair (encodeString ident) (Nat.pair (encodeTyp ty) (encodeExpr e)))
  | .fnI ident block => Nat.pair 5 (Nat.pair (encodeString ident) (encodeStmtList block))
  | .modI ident content => Nat.pair 6 (Nat.pair (encodeString ident) (encodeItemsOpt content))
  | .foreignModI fitems => Nat.pair 7 (encodeNatList fitems)
  | .typeI tag => Nat.pair 8 tag
  | .structI tag => Nat.pair 9 tag
  | .enumI tag => Nat.pair 10 tag
  | .unionI tag => Nat.pair 11 tag
  | .traitI tag => Nat.pair 12 tag
  | .traitAliasI tag => Nat.pair 13 tag
  | .implI ty iitems => Nat.pair 14 (Nat.pair (encodeTyp ty) (encodeImplItemList iitems))
  | .mcrI tag => Nat.pair 15 tag
  | .mcr2I tag => Nat.pair 16 tag
  | .verbatimI tag => Nat.pair 17 tag
def encodeItemList : List Item → Nat
  | [] => 0
  | i :: rest => Nat.pair 1 (Nat.pair (encodeItem i) (encodeItemList rest))
def encodeItemsOpt : Option (List Item) → Nat
  | none => 0
  | some items => Nat.pair 1 (encodeItemList items)
end

/-- The subjects the source feeds into `DefaultHasher`: whole `syn::Item`s
and, one level deeper, the payload structs (`ItemUse`, `ItemFn`, ...), plus
the whole `syn::File` in `ast_graph_parser.rs`.  Distinct top-level tags keep
an `Item::Use(u)` distinct from the inner `ItemUse` `u`, exactly as the enum
discriminant does under `#[derive(Hash)]`. -/
inductive HKey where
  | fileK (f : SynFile)
  | itemK (i : Item)
  | extCrateK (ident : String) (ren : Option String)
  | useK (tree : UseTree)
  | staticK (ident : String) (ty : Typ) (e : Expr)
  | constK (ident : String) (ty : Typ) (e : Expr)
  | fnK (ident : String) (block : List Stmt)
  | modK (ident : String) (content : Option (List Item))
  | foreignModK (fitems : List Nat)

/-- Models `get_node` (`ast_graph_parser.rs:11-16`) / the hashing inside
`checked_update` (`cyclomatic.rs:39-41`): deterministic structural hash of a
subtree.  Modelled as the injective encoding (an ideal collision-free
`DefaultHasher`); tags start at 1, so no hash equals the sentinel parent 0. -/
def get_node : HKey → Nat
  | .fileK f => Nat.pair 1 (encodeItemList f.items)
  | .itemK i => Nat.pair 2 (encodeItem i)
  | .extCrateK ident ren => Nat.pair 3 (Nat.pair (encodeString ident) (encodeOpt (ren.map encodeString)))
  | .useK tree => Nat.pair 4 (encodeUseTree tree)
  | .staticK ident ty e => Nat.pair 5 (Nat.pair (encodeString ident) (Nat.pair (encodeTyp ty) (encodeExpr e)))
  | .constK ident ty e => Nat.pair 6 (Nat.pair (encodeString ident) (Nat.pair (encodeTyp ty) (encodeExpr e)))
  | .fnK ident block => Nat.pair 7 (Nat.pair (encodeString ident) (encodeStmtList block))
  | .modK ident content => Nat.pair 8 (Nat.pair (encodeString ident) (encodeItemsOpt content))
  | .foreignModK fitems => Nat.pair 9 (encodeNatList fitems)

/-! ## `src/cyclomatic.rs` — counter-based AST graph -/

namespace Cyc

/-- From `cyclomatic.rs` `ASTGraph`: running counters plus the visited-hash set.
`visited : HashSet<u64>` is modelled as a duplicate-free `List Nat` (insertion
order is irrelevant to every observation made of it). -/
structure ASTGraph where
  connected_components : Int
  nodes : Int
  edges : Int
  visited : List Nat

/-- From `cyclomatic.rs:37-50`: increment `edges`, hash the subtree, and if the
hash is new insert it and increment `nodes`, returning whether it was new. -/
def checked_update (g : ASTGraph) (k : HKey) : Bool × ASTGraph :=
  let g : ASTGraph := ⟨g.connected_components, g.nodes, g.edges + 1, g.visited⟩
  let addr := get_node k
  if addr ∈ g.visited then (false, g)
  else (true, ⟨g.connected_components, g.nodes + 1, g.edges, addr :: g.visited⟩)

/-- From `cyclomatic.rs:84-91` `parse_item_extern_crate`: on a new vertex, a
renamed extern crate contributes two extra nodes and edges. -/
def parse_item_ext_crate (g : ASTGraph) (ident : String) (ren : Option String) : ASTGraph :=
  let r := checked_update g (.extCrateK ident ren)
  if r.1 then
    if ren.isSome then
      ⟨r.2.connected_components, r.2.nodes + 2, r.2.edges + 2, r.2.visited⟩
    else r.2
  else r.2

/-- From `cyclomatic.rs:141` `parse_use_tree`: a stub — the use-path is not
traversed. -/
def parse_use_tree (g : ASTGraph) (_ : UseTree) : ASTGraph := g

/-- From `cyclomatic.rs:143` `parse_type`: stub. -/
def parse_type (g : ASTGraph) (_ : Typ) : ASTGraph := g

/-- From `cyclomatic.rs:145` `parse_expr`: stub. -/
def parse_expr (g : ASTGraph) (_ : Expr) : ASTGraph := g

/-- From `cyclomatic.rs:147` `parse_block`: stub. -/
def parse_block (g : ASTGraph) (_ : Block) : ASTGraph := g

/-- From `cyclomatic.rs:93-97` `parse_item_use`. -/
def parse_item_use (g : ASTGraph) (tree : UseTree) : ASTGraph :=
  let r := checked_update g (.useK tree)
  if r.1 then parse_use_tree r.2 tree else r.2

/-- From `cyclomatic.rs:99-104` `parse_item_static`. -/
def parse_item_static (g : ASTGraph) (ident : String) (ty : Typ) (e : Expr) : ASTGraph :=
  let r := checked_update g (.staticK ident ty e)
  if r.1 then parse_expr (parse_type r.2 ty) e else r.2

/-- From `cyclomatic.rs:106-111` `parse_item_const`. -/
def parse_item_const (g : ASTGraph) (ident : String) (ty : Typ) (e : Expr) : ASTGraph :=
  let r := checked_update g (.constK ident ty e)
  if r.1 then parse_expr (parse_type r.2 ty) e else r.2

/-- From `cyclomatic.rs:113-117` `parse_item_fn`. -/
def parse_item_fn (g : ASTGraph) (ident : String) (block : Block) : ASTGraph :=
  let r := checked_update g (.fnK ident block)
  if r.1 then parse_block r.2 block else r.2

/-- From `cyclomatic.rs:59-82` `parse_item`: register the item's own vertex, and
only if it is new dispatch on the variant.  `Mod`, `ForeignMod`, `Type`,
`Struct`, `Enum`, `Union`, `Trait`, `TraitAlias`, `Impl`, `Macro`, `Macro2`
have empty bodies in this file (`cyclomatic.rs:119-139`), and `Verbatim` /
`__TestExhaustive` are skipped, so they all fall to the no-op arm. -/
def parse_item (g : ASTGraph) (ast : Item) : ASTGraph :=
  let r := checked_update g (.itemK ast)
  if r.1 then
    match ast with
    | .extCrateI ident ren => parse_item_ext_crate r.2 ident ren
    | .useI tree => parse_item_use r.2 tree
    | .staticI ident ty e => parse_item_static r.2 ident ty e
    | .constItemI ident ty e => parse_item_const r.2 ident ty e
    | .fnI ident block => parse_item_fn r.2 ident block
    | _ => r.2
  else r.2

/-- From `cyclomatic.rs:52-57` `parse_file`: one `connected_components` increment
per top-level item, then parse the item. -/
def parse_file (g : ASTGraph) (f : SynFile) : ASTGraph :=
  f.items.foldl
    (fun g item =>
      parse_item ⟨g.connected_components + 1, g.nodes, g.edges, g.visited⟩ item)
    g

/-- From `cyclomatic.rs:26-35` `ASTGraph::new`: start from all-zero counters and
parse the file. -/
def ASTGraph.new (f : SynFile) : ASTGraph :=
  parse_file ⟨0, 0, 0, []⟩ f

/-- From `cyclomatic.rs:10-15` `calculate_complexity`, with the file-reading and
`syn::parse_file` front end (external I/O) factored out: the caller supplies
the parsed `syn::File`. -/
def calculate_complexity (f : SynFile) : Int :=
  let ast := ASTGraph.new f
  ast.edges - ast.nodes + 2 * ast.connected_components

end Cyc

/-! ## `src/parsers/ast_graph_parser.rs` — edge-list AST graph -/

namespace AGP

/-- From `ast_graph_parser.rs:41-45` `ASTGraph`: the vertex-hash set (duplicate
free, insertion ordered) and the edge list (a multigraph: duplicates kept). -/
structure ASTGraph where
  nodes : List Nat
  edges : List (Nat × Nat)

/-- From `ast_graph_parser.rs:58-67` `checked_update`: push the `parent → node`
edge unconditionally; insert the vertex and report whether it was new. -/
def checked_update (g : ASTGraph) (node parent : Nat) : Bool × ASTGraph :=
  let g : ASTGraph := ⟨g.nodes, g.edges ++ [(parent, node)]⟩
  if node ∈ g.nodes then (false, g)
  else (true, ⟨g.nodes ++ [node], g.edges⟩)

mutual
/-- From `ast_graph_parser.rs:78-102` `parse_item`: register the item's vertex
under `parent`; only when new, dispatch on the variant.  Stub arms
(`ast_graph_parser.rs:160-186`): `Type`, `Struct`, `Enum`, `Union`, `Trait`,
`TraitAlias`, `Impl`, `Macro`, `Macro2` plus skipped `Verbatim`; the helpers
`parse_use_tree`, `parse_type`, `parse_expr`, `parse_block`,
`parse_foreign_item` are stubs too, inlined here as identity. -/
def parse_item (g : ASTGraph) (ast : Item) (parent : Nat) : ASTGraph :=
  let node := get_node (.itemK ast)
  let r := checked_update g node parent
  if r.1 then
    match ast with
    | .extCrateI ident ren =>
      -- `parse_item_extern_crate` (105-108): registers, ignores novelty
      (checked_update r.2 (get_node (.extCrateK ident ren)) node).2
    | .useI tree =>
      -- `parse_item_use` (110-115); `parse_use_tree` is a stub
      let r2 := checked_update r.2 (get_node (.useK tree)) node
      r2.2
    | .staticI ident ty e =>
      -- `parse_item_static` (117-123); `parse_type`/`parse_expr` are stubs
      let r2 := checked_update r.2 (get_node (.staticK ident ty e)) node
      r2.2
    | .constItemI ident ty e =>
      -- `parse_item_const` (125-131); stubs as above
      let r2 := checked_update r.2 (get_node (.constK ident ty e)) node
      r2.2
    | .fnI ident block =>
      -- `parse_item_fn` (133-138); `parse_block` is a stub
      let r2 := checked_update r.2 (get_node (.fnK ident block)) node
      r2.2
    | .modI ident content =>
      -- `parse_item_mod` (140-149): recurse into the module's items
      let node2 := get_node (.modK ident content)
      let r2 := checked_update r.2 node2 node
      if r2.1 then
        match content with
        | none => r2.2
        | some items => parse_items r2.2 items node2
      else r2.2
    | .foreignModI fitems =>
      -- `parse_item_foreign_mod` (151-158); `parse_foreign_item` is a stub
      let r2 := checked_update r.2 (get_node (.foreignModK fitems)) node
      r2.2
    | _ => r.2
  else r.2

/-- The `for item in items` loops of `parse_file` / `parse_item_mod`,
threading the graph left to right. -/
def parse_items (g : ASTGraph) (items : List Item) (parent : Nat) : ASTGraph :=
  match items with
  | [] => g
  | i :: rest => parse_items (parse_item g i parent) rest parent
end

/-- From `ast_graph_parser.rs:69-76` `parse_file`: register the file's own vertex
under `parent` and, when new, walk the top-level items with the file vertex
as parent. -/
def parse_file (g : ASTGraph) (f : SynFile) (parent : Nat) : ASTGraph :=
  let node := get_node (.fileK f)
  let r := checked_update g node parent
  if r.1 then parse_items r.2 f.items node else r.2

/-- From `ast_graph_parser.rs:48-56` `ASTGraph::new`: empty graph, parse the file
with sentinel parent `0`. -/
def ASTGraph.new (f : SynFile) : ASTGraph :=
  parse_file ⟨[], []⟩ f 0

end AGP

/-! ## `src/calculator.rs` — generic graph and Euler-formula complexity -/

namespace Calc

/-- From `calculator.rs:4` `pub type Node = u64`. -/
abbrev Node := Nat

/-- From `calculator.rs:6-9` `Edge`. -/
structure Edge where
  fromV : Node
  toV : Node

/-- From `calculator.rs:17-19` `Graph`: just the edge list. -/
structure Graph where
  edges : List Edge

/-- Models `HashSet::insert`, on the duplicate-free-list model of a hash set. -/
def insertNode (l : List Node) (n : Node) : List Node :=
  if n ∈ l then l else l ++ [n]

/-- The first loop of `calculate_complexity` (`calculator.rs:32-35`): the set
of all endpoints of all edges. -/
def nodeSet (g : Graph) : List Node :=
  g.edges.foldl (fun l e => insertNode (insertNode l e.fromV) e.toV) []

/-- The second loop (`calculator.rs:40-42`) removes every node that is the
source of some edge; what remains are the "exit" (leaf) nodes. -/
def exitSet (g : Graph) : List Node :=
  (nodeSet g).filter (fun n => ¬ g.edges.any (fun e => e.fromV == n))

/-- From `calculator.rs:26-46` `Graph::calculate_complexity`:
`edge_count - node_count + 2 * exit_count`. -/
def calculate_complexity (g : Graph) : Int :=
  (g.edges.length : Int) - ((nodeSet g).length : Int) + 2 * ((exitSet g).length : Int)

/-- From `ast_graph_parser.rs:32-39` `ASTGraphParser::parse` with the external
file I/O and `syn` parse factored out: build the `AGP.ASTGraph` and convert
its edge tuples via `From<(Node, Node)>` (`calculator.rs:11-15`). -/
def astGraphParserParse (f : SynFile) : Graph :=
  ⟨(AGP.ASTGraph.new f).edges.map (fun t => ⟨t.1, t.2⟩)⟩

/-- From `calculator.rs:53-56` `calculate`, specialised to the AST graph parser. -/
def calculate (f : SynFile) : Int :=
  calculate_complexity (astGraphParserParse f)

end Calc

/-! ## `src/parsers/rust_parser.rs` — decision-point counter + complexity tree -/

namespace RP

/-- From `parsers/error.rs:5-12` `ParseErrorKind`. -/
inductive ParseErrorKind where
  | InvalidSymbol
  | UnexpectedEOF
  | NoMatches
  | ConversionError
  | UnknownCharacter (c : Char)
  deriving DecidableEq

/-- From `parsers/error.rs:20-26` `ParseError` (the `source : Option<Box<dyn
Error>>` field carries no structure the analyzer inspects and is omitted). -/
structure ParseError where
  kind : ParseErrorKind
  msg : Option String
  index : Option Nat
  deriving DecidableEq

/-- From `rust_parser.rs:18-24` `ComplexityNodeKind`. -/
inductive ComplexityNodeKind where
  | Fn
  | Method
  | Impl
  | File
  deriving DecidableEq

/-- The `Display` impl (`rust_parser.rs:26-30`): `write!("{:?}", self)`. -/
def ComplexityNodeKind.toStr : ComplexityNodeKind → String
  | .Fn => "Fn"
  | .Method => "Method"
  | .Impl => "Impl"
  | .File => "File"

/-- From `rust_parser.rs:32-38` `ComplexityNode` (recursive, so an inductive). -/
inductive ComplexityNode where
  | mk (name : String) (kind : ComplexityNodeKind) (complexity : Nat)
       (children : List ComplexityNode)

def ComplexityNode.name : ComplexityNode → String
  | .mk n _ _ _ => n

def ComplexityNode.kind : ComplexityNode → ComplexityNodeKind
  | .mk _ k _ _ => k

def ComplexityNode.complexity : ComplexityNode → Nat
  | .mk _ _ c _ => c

def ComplexityNode.children : ComplexityNode → List ComplexityNode
  | .mk _ _ _ ch => ch

/-- From `rust_parser.rs:41-48` `ComplexityNode::new`: complexity 0, no children. -/
def ComplexityNode.new (name : String) (kind : ComplexityNodeKind) : ComplexityNode :=
  .mk name kind 0 []

/-- From `rust_parser.rs:50-53` `with_complexity`. -/
def ComplexityNode.with_complexity : ComplexityNode → Nat → ComplexityNode
  | .mk n k _ ch, c => .mk n k c ch

/-- From `rust_parser.rs:55-57` `add_child`: push onto the children vector. -/
def ComplexityNode.add_child : ComplexityNode → ComplexityNode → ComplexityNode
  | .mk n k c ch, child => .mk n k c (ch ++ [child])

/-- From `rust_parser.rs:60-63` `ComplexityTree`. -/
structure ComplexityTree where
  root : ComplexityNode

/-! ### The `Process` trait (`rust_parser.rs:130-232`) — decision points -/

mutual
/-- From `impl Process for syn::Expr` (`rust_parser.rs:151-166`): dispatch to
Array/Assign/AssignOp/Block/Break/If; every other variant adds nothing. -/
def exprProcess : Expr → Nat
  | .array elems => exprListProcess elems
  | .assign l r => exprProcess l + exprProcess r
  | .assignOp l r => exprProcess l + exprProcess r
  | .blockE b => blockProcess b
  | .brkE e => 1 + exprOptProcess e
  | .ifE _ t els => 1 + blockProcess t + exprOptProcess els
  | .otherE _ => 0

/-- The `if let Some(expr) = ... { complexity += expr.process() }` pattern
of `ExprBreak` (`rust_parser.rs:208-218`) and the else-branch of `ExprIf`
(`rust_parser.rs:220-232`). -/
def exprOptProcess : Option Expr → Nat
  | none => 0
  | some e => exprProcess e

/-- From `impl Process for syn::ExprArray` (`rust_parser.rs:168-178`): sum over
the element expressions. -/
def exprListProcess : List Expr → Nat
  | [] => 0
  | e :: rest => exprProcess e + exprListProcess rest

/-- From `impl Process for syn::Block` (`rust_parser.rs:134-149`): sum over the
statements; only `Stmt::Expr` contributes (the `Local`, `Item` and `Semi`
arms are commented out / fall to `_ => {}`). -/
def blockProcess : List Stmt → Nat
  | [] => 0
  | s :: rest => stmtProcess s + blockProcess rest

/-- The per-statement contribution inside `syn::Block::process`. -/
def stmtProcess : Stmt → Nat
  | .exprS e => exprProcess e
  | _ => 0
end

/-! ### The tree builder (`rust_parser.rs:66-128`) -/

/-- From `rust_parser.rs:120-128` `get_impl_resolved_name`: the first path segment
of the implemented type, or a `NoMatches` parse error.  (syn paths are
non-empty, so `segments[0]` is total here.) -/
def get_impl_resolved_name : Typ → Except ParseError String
  | .pathT h _ => .ok h
  | _ => .error ⟨.NoMatches, some ("Identifier not found for impl"), none⟩

/-- Outcome of running the tree generator.  The source can leave
`generate` in three ways: return `Ok(tree)`, return `Err` (only from the
`get_ast` I/O front end, factored out here), or abort the process by a panic
(`ok().unwrap()` on a failed name resolution, `rust_parser.rs:99`). -/
inductive GenOutcome (α : Type) where
  | ok (a : α)
  | errE (e : ParseError)
  | panicked
  deriving DecidableEq

/-- From `rust_parser.rs:113-118` `process_impl_item_method`: a Method-kind leaf
carrying its own body's decision-point count. -/
def process_impl_item_method (ident : String) (block : Block)
    (parent : ComplexityNode) : ComplexityNode :=
  parent.add_child ((ComplexityNode.new ident .Method).with_complexity (blockProcess block))

/-- From `rust_parser.rs:97-111` `process_item_impl`: resolve the self-type name —
`.ok().unwrap()` discards the `ParseError` and panics when resolution failed —
then fold over the impl's items, adding a Method leaf per `ImplItem::Method`
and ignoring every other associated item. -/
def process_item_impl (selfTy : Typ) (iitems : List ImplItem)
    (parent : ComplexityNode) : GenOutcome ComplexityNode :=
  match get_impl_resolved_name selfTy with
  | .error _ => .panicked
  | .ok nm =>
    let node := iitems.foldl
      (fun nd it =>
        match it with
        | .methodI ident block => process_impl_item_method ident block nd
        | _ => nd)
      (ComplexityNode.new nm .Impl)
    .ok (parent.add_child node)

/-- From `rust_parser.rs:90-95` `process_item_fn`: an Fn-kind leaf carrying its
own body's decision-point count. -/
def process_item_fn (ident : String) (block : Block)
    (parent : ComplexityNode) : ComplexityNode :=
  parent.add_child ((ComplexityNode.new ident .Fn).with_complexity (blockProcess block))

/-- One arm of the `match` in `process_file` (`rust_parser.rs:78-88`):
`Fn` and `Impl` are processed; `Mod`, `Trait` and everything else do
nothing. -/
def process_item (it : Item) (parent : ComplexityNode) : GenOutcome ComplexityNode :=
  match it with
  | .fnI ident block => .ok (process_item_fn ident block parent)
  | .implI ty iitems => process_item_impl ty iitems parent
  | _ => .ok parent

/-- The `for item in ast.items` loop of `process_file`, stopping at the point
where the source would panic. -/
def process_file_items : List Item → ComplexityNode → GenOutcome ComplexityNode
  | [], parent => .ok parent
  | i :: rest, parent =>
    match process_item i parent with
    | .ok p => process_file_items rest p
    | .errE e => .errE e
    | .panicked => .panicked

/-- From `rust_parser.rs:66-73` `ComplexityTree::generate`, with the `get_ast`
file-reading front end factored out: the caller supplies the parsed
`syn::File` and the file path used as the root node's name. -/
def generate (f : SynFile) (file_path : String) : GenOutcome ComplexityTree :=
  match process_file_items f.items (ComplexityNode.new file_path .File) with
  | .ok root => .ok ⟨root⟩
  | .errE e => .errE e
  | .panicked => .panicked

end RP

/-! ## `src/bin/main.rs` — the reporter -/

namespace Main

open RP

mutual
/-- From `main.rs:45-61` `display`, with each `println!` emitted as one element of
the returned line list: extend the running path with `Kind: name`; a leaf
prints one `[path] Complexity => N` line, an inner node prints nothing and
recurses into its children. -/
def displayLines (node : ComplexityNode) (path : String) : List String :=
  match node with
  | .mk nm k cx children =>
    let pathHere := (if path.isEmpty then path else path ++ " > ") ++ k.toStr ++ ": " ++ nm
    if children.isEmpty then
      ["[" ++ pathHere ++ "] Complexity => " ++ toString cx]
    else
      displayList children pathHere

/-- The `for child in node.children` loop of `display`. -/
def displayList (nodes : List ComplexityNode) (path : String) : List String :=
  match nodes with
  | [] => []
  | c :: rest => displayLines c path ++ displayList rest path
end

/-- From `main.rs:36-43` `display_complexity` on an already generated root:
a `File: <name>` header line, the body, and a final empty line. -/
def display_complexity (root : ComplexityNode) : List String :=
  ("File: " ++ root.name) :: displayList root.children ("") ++ [""]

end Main

/-! ## Specification-side definitions

Definitions below are stated from the specification's wording, to be compared
with the source-derived functions above. -/

namespace Spec

/-- An `else if` chain: `elseChain clauses fin` is the else-branch expression
consisting of the clauses `else if c { t }` in order, ended by an optional
final `else { fin }` (an `else` block is an `Expr::Block`). -/
def elseChain : List (Expr × Block) → Option Block → Option Expr
  | [], none => none
  | [], some b => some (.blockE b)
  | (c, t) :: rest, fin => some (.ifE c t (elseChain rest fin))

/-- Total decision-point count of the clause branches of a chain. -/
def branchSum (clauses : List (Expr × Block)) : Nat :=
  (clauses.map (fun p => RP.blockProcess p.2)).sum

/-- Decision-point count of the optional final `else` block. -/
def finCount : Option Block → Nat
  | none => 0
  | some b => RP.blockProcess b

/-- The trailing-expression content of a statement: `Stmt::Expr` carries one,
every other statement form carries none. -/
def trailingExpr : Stmt → Option Expr
  | .exprS e => some e
  | _ => none

/-- The Method-kind leaves an impl block should produce: one per
`ImplItem::Method`, in order, each carrying its own body's decision-point
count; every other associated item is dropped. -/
def methodLeaves (iitems : List ImplItem) : List RP.ComplexityNode :=
  iitems.filterMap (fun it =>
    match it with
    | .methodI ident block =>
      some (.mk ident .Method (RP.blockProcess block) [])
    | _ => none)

/-- Whether a self-type is a simple named path. -/
def isNamedPathTyp : Typ → Bool
  | .pathT _ _ => true
  | _ => false

mutual
/-- Every File-kind or Impl-kind node in the tree carries complexity 0. -/
def goodNode : RP.ComplexityNode → Bool
  | .mk _ k c ch =>
    (!(k == .File || k == .Impl) || c == 0) && goodChildren ch
def goodChildren : List RP.ComplexityNode → Bool
  | [] => true
  | c :: rest => goodNode c && goodChildren rest
end

mutual
/-- The leaves of a complexity tree, each with the `(kind, name)` ancestry
from the given node down to the leaf (inclusive), paired with the leaf's
complexity — the data §4.6 says the reporter prints one line per entry of. -/
def leafPaths : RP.ComplexityNode → List (List (RP.ComplexityNodeKind × String) × Nat)
  | .mk nm k cx [] => [([(k, nm)], cx)]
  | .mk nm k _ (c :: cs) =>
    (leafPathsList (c :: cs)).map (fun p => ((k, nm) :: p.1, p.2))
def leafPathsList : List RP.ComplexityNode → List (List (RP.ComplexityNodeKind × String) × Nat)
  | [] => []
  | c :: rest => leafPaths c ++ leafPathsList rest
end

/-- Extending a running path string by one `Kind: name` segment, separated by
`" > "` unless the path is still empty. -/
def extendPath (path : String) (k : RP.ComplexityNodeKind) (nm : String) : String :=
  (if path.isEmpty then path else path ++ " > ") ++ k.toStr ++ ": " ++ nm

/-- The full path label of an ancestry list, appended to an initial path. -/
def renderPath : String → List (RP.ComplexityNodeKind × String) → String
  | path, [] => path
  | path, (k, nm) :: rest => renderPath (extendPath path k nm) rest

/-- The one report line of a leaf: its bracketed full ancestry path followed
by its complexity. -/
def fmtLeaf (path : String) (p : List (RP.ComplexityNodeKind × String) × Nat) : String :=
  "[" ++ renderPath path p.1 ++ "] Complexity => " ++ toString p.2

/-- A file whose single top-level item is `mod m { use a; use b; }` — one
top-level item, but its graph has two leaf ("exit") vertices. -/
def modFile : SynFile :=
  ⟨[.modI ("m") (some [.useI (.nameT ("a")), .useI (.nameT ("b"))])]⟩

end Spec

/-! ## Theorems -/

/-- How an `else if` chain is counted: each clause of the chain contributes
exactly one decision point on top of its branches' own counts. -/
theorem elseChain_process (clauses : List (Expr × Block)) (fin : Option Block) :
    RP.exprOptProcess (Spec.elseChain clauses fin)
      = clauses.length + Spec.branchSum clauses + Spec.finCount fin := by
  induction clauses with
  | nil =>
    cases fin <;>
      simp [Spec.elseChain, RP.exprOptProcess, RP.exprProcess, Spec.branchSum, Spec.finCount]
  | cons p rest ih =>
    obtain ⟨c, t⟩ := p
    simp only [Spec.elseChain, RP.exprOptProcess, RP.exprProcess, Spec.branchSum,
      List.map_cons, List.sum_cons, List.length_cons]
    simp only [Spec.branchSum] at ih
    omega

/-- C2: the Decision-Point Counter adds 1 per `if` plus the recursive counts
of its then branch and (when present) else branch, so a leading `if` followed
by N `else if` clauses contributes N + 1; nested blocks are recursed into at
no cost; `Array`, `Assign` and `AssignOp` recurse at no direct cost;
unsupported expressions contribute 0 — but a `break` expression also adds 1
(plus its optional operand's count), unlike what the claim states. -/
theorem decision_points_amended :
    (∀ c t els, RP.exprProcess (.ifE c t els)
        = 1 + RP.blockProcess t + RP.exprOptProcess els)
  ∧ (∀ c t clauses fin,
      RP.exprProcess (.ifE c t (Spec.elseChain clauses fin))
        = (1 + clauses.length)
          + (RP.blockProcess t + Spec.branchSum clauses) + Spec.finCount fin)
  ∧ (∀ b, RP.exprProcess (.blockE b) = RP.blockProcess b)
  ∧ (∀ l r, RP.exprProcess (.assign l r) = RP.exprProcess l + RP.exprProcess r)
  ∧ (∀ l r, RP.exprProcess (.assignOp l r) = RP.exprProcess l + RP.exprProcess r)
  ∧ (∀ es, RP.exprProcess (.array es) = RP.exprListProcess es)
  ∧ (∀ tag, RP.exprProcess (.otherE tag) = 0)
  ∧ (∀ e, RP.exprProcess (.brkE e) = 1 + RP.exprOptProcess e) := by
  refine ⟨fun c t els => by simp [RP.exprProcess], fun c t clauses fin => ?_,
    fun b => by simp [RP.exprProcess], fun l r => by simp [RP.exprProcess],
    fun l r => by simp [RP.exprProcess], fun es => by simp [RP.exprProcess],
    fun tag => by simp [RP.exprProcess], fun e => by simp [RP.exprProcess]⟩
  simp only [RP.exprProcess, elseChain_process]
  omega

/-- C2, counterexample: a function body consisting of the single trailing
expression `break` contains no `if` at all, yet counts 1 — `break` is not a
form that "contributes 0 directly". -/
theorem decision_points_counterexample :
    RP.blockProcess [.exprS (.brkE none)] = 1
      ∧ RP.blockProcess [.exprS (.brkE none)] ≠ 0 := by
  refine ⟨rfl, by decide⟩

/-- C9: `syn::Block::process` sums the counts of the expressions of its
`Stmt::Expr` statements only; `Local`, `Item` and `Semi` statements
contribute 0 and are never recursed into — a semicolon-terminated `if`
contributes nothing. -/
theorem trailing_stmt_only :
    (∀ stmts : List Stmt,
      RP.blockProcess stmts
        = ((stmts.filterMap Spec.trailingExpr).map RP.exprProcess).sum)
  ∧ (∀ e, RP.stmtProcess (.semiS e) = 0)
  ∧ (∀ init, RP.stmtProcess (.localS init) = 0)
  ∧ (∀ tag, RP.stmtProcess (.itemS tag) = 0)
  ∧ (∀ c t els, RP.blockProcess [.semiS (.ifE c t els)] = 0) := by
  refine ⟨?_, fun e => by simp [RP.stmtProcess], fun init => by simp [RP.stmtProcess],
    fun tag => by simp [RP.stmtProcess],
    fun c t els => by simp [RP.blockProcess, RP.stmtProcess]⟩
  intro stmts
  induction stmts with
  | nil => simp [RP.blockProcess]
  | cons s rest ih =>
    cases s <;>
      simp [RP.blockProcess, RP.stmtProcess, Spec.trailingExpr, ih]

theorem methodLeaves_nil : Spec.methodLeaves [] = [] := rfl

theorem methodLeaves_cons_method (ident : String) (block : Block)
    (rest : List ImplItem) :
    Spec.methodLeaves (.methodI ident block :: rest)
      = .mk ident .Method (RP.blockProcess block) [] :: Spec.methodLeaves rest := rfl

theorem methodLeaves_cons_const (tag : Nat) (rest : List ImplItem) :
    Spec.methodLeaves (.constAssoc tag :: rest) = Spec.methodLeaves rest := rfl

theorem methodLeaves_cons_type (tag : Nat) (rest : List ImplItem) :
    Spec.methodLeaves (.typeAssoc tag :: rest) = Spec.methodLeaves rest := rfl

theorem methodLeaves_cons_mcr (tag : Nat) (rest : List ImplItem) :
    Spec.methodLeaves (.mcrAssoc tag :: rest) = Spec.methodLeaves rest := rfl

theorem methodLeaves_cons_verbatim (tag : Nat) (rest : List ImplItem) :
    Spec.methodLeaves (.verbatimAssoc tag :: rest) = Spec.methodLeaves rest := rfl

/-- The fold over an impl block's associated items appends exactly the
Method-kind leaves to the accumulator's children. -/
theorem impl_items_fold (iitems : List ImplItem) (nm : String)
    (k : RP.ComplexityNodeKind) (c : Nat) (ch : List RP.ComplexityNode) :
    iitems.foldl
      (fun nd it =>
        match it with
        | .methodI ident block => RP.process_impl_item_method ident block nd
        | _ => nd)
      (.mk nm k c ch)
      = .mk nm k c (ch ++ Spec.methodLeaves iitems) := by
  induction iitems generalizing ch with
  | nil => simp [methodLeaves_nil]
  | cons it rest ih =>
    cases it with
    | methodI ident block =>
      rw [List.foldl_cons, methodLeaves_cons_method]
      exact (ih (ch ++ [RP.ComplexityNode.mk ident .Method (RP.blockProcess block) []])).trans
        (by simp)
    | constAssoc tag =>
      simp only [List.foldl_cons, methodLeaves_cons_const]
      exact ih ch
    | typeAssoc tag =>
      simp only [List.foldl_cons, methodLeaves_cons_type]
      exact ih ch
    | mcrAssoc tag =>
      simp only [List.foldl_cons, methodLeaves_cons_mcr]
      exact ih ch
    | verbatimAssoc tag =>
      simp only [List.foldl_cons, methodLeaves_cons_verbatim]
      exact ih ch

/-- Evaluating `process_item_impl` on a named-path self-type: an Impl node named by the
leading path segment, whose children are exactly the Method leaves. -/
theorem process_item_impl_named (h : String) (segs : List String)
    (iitems : List ImplItem) (parent : RP.ComplexityNode) :
    RP.process_item_impl (.pathT h segs) iitems parent
      = .ok (parent.add_child (.mk h .Impl 0 (Spec.methodLeaves iitems))) := by
  simp [RP.process_item_impl, RP.get_impl_resolved_name, RP.ComplexityNode.new,
    impl_items_fold]

/-- C6: a file with one free function and one `impl` over a named type
produces a File root with exactly two children — an Fn leaf named after the
free function with its own body's count, and an Impl node named by the
self-type's leading segment whose children are one Method leaf per
`ImplItem::Method` (each with its own body's count); in particular with
`impl Foo { fn bar }` the tree has exactly the two leaves, and every
non-Method associated item is dropped. -/
theorem two_leaf_tree :
    (∀ (lbl fname : String) (fb : Block) (iname : String) (irest : List String)
        (iitems : List ImplItem),
      RP.generate ⟨[.fnI fname fb, .implI (.pathT iname irest) iitems]⟩ lbl
        = .ok ⟨.mk lbl .File 0
            [.mk fname .Fn (RP.blockProcess fb) [],
             .mk iname .Impl 0 (Spec.methodLeaves iitems)]⟩)
  ∧ (∀ (lbl fname : String) (fb : Block) (iname : String) (irest : List String)
        (bname : String) (bb : Block),
      RP.generate ⟨[.fnI fname fb, .implI (.pathT iname irest) [.methodI bname bb]]⟩ lbl
        = .ok ⟨.mk lbl .File 0
            [.mk fname .Fn (RP.blockProcess fb) [],
             .mk iname .Impl 0 [.mk bname .Method (RP.blockProcess bb) []]]⟩)
  ∧ (∀ tag iitems, Spec.methodLeaves (.constAssoc tag :: iitems) = Spec.methodLeaves iitems)
  ∧ (∀ tag iitems, Spec.methodLeaves (.typeAssoc tag :: iitems) = Spec.methodLeaves iitems)
  ∧ (∀ tag iitems, Spec.methodLeaves (.mcrAssoc tag :: iitems) = Spec.methodLeaves iitems)
  ∧ (∀ tag iitems, Spec.methodLeaves (.verbatimAssoc tag :: iitems) = Spec.methodLeaves iitems) := by
  have base : ∀ (lbl fname : String) (fb : Block) (iname : String) (irest : List String)
      (iitems : List ImplItem),
      RP.generate ⟨[.fnI fname fb, .implI (.pathT iname irest) iitems]⟩ lbl
        = .ok ⟨.mk lbl .File 0
            [.mk fname .Fn (RP.blockProcess fb) [],
             .mk iname .Impl 0 (Spec.methodLeaves iitems)]⟩ := by
    intro lbl fname fb iname irest iitems
    simp [RP.generate, RP.process_file_items, RP.process_item, RP.process_item_fn,
      process_item_impl_named, RP.ComplexityNode.new, RP.ComplexityNode.add_child,
      RP.ComplexityNode.with_complexity]
  refine ⟨base, ?_, ?_, ?_, ?_, ?_⟩
  · intro lbl fname fb iname irest bname bb
    have := base lbl fname fb iname irest [.methodI bname bb]
    simpa [methodLeaves_cons_method, methodLeaves_nil] using this
  · exact fun tag iitems => methodLeaves_cons_const tag iitems
  · exact fun tag iitems => methodLeaves_cons_type tag iitems
  · exact fun tag iitems => methodLeaves_cons_mcr tag iitems
  · exact fun tag iitems => methodLeaves_cons_verbatim tag iitems

/-- Fn-kind and Method-kind leaves always satisfy the File/Impl-zero
invariant, whatever complexity they carry. -/
theorem goodNode_leaf_fn (ident : String) (cx : Nat) :
    Spec.goodNode (.mk ident .Fn cx []) = true := by
  simp [Spec.goodNode, Spec.goodChildren]

theorem goodChildren_append (a b : List RP.ComplexityNode) :
    Spec.goodChildren (a ++ b) = (Spec.goodChildren a && Spec.goodChildren b) := by
  induction a with
  | nil => simp [Spec.goodChildren]
  | cons c rest ih => simp [Spec.goodChildren, ih, Bool.and_assoc]

theorem goodNode_add_child (p c : RP.ComplexityNode) :
    Spec.goodNode (p.add_child c) = (Spec.goodNode p && Spec.goodNode c) := by
  cases p with
  | mk nm k cx ch =>
    simp [RP.ComplexityNode.add_child, Spec.goodNode, goodChildren_append,
      Spec.goodChildren, Bool.and_assoc]

theorem goodChildren_methodLeaves (iitems : List ImplItem) :
    Spec.goodChildren (Spec.methodLeaves iitems) = true := by
  induction iitems with
  | nil => simp [methodLeaves_nil, Spec.goodChildren]
  | cons it rest ih =>
    cases it with
    | methodI ident block =>
      rw [methodLeaves_cons_method]
      simp [Spec.goodChildren, Spec.goodNode, ih]
    | constAssoc tag => rw [methodLeaves_cons_const]; exact ih
    | typeAssoc tag => rw [methodLeaves_cons_type]; exact ih
    | mcrAssoc tag => rw [methodLeaves_cons_mcr]; exact ih
    | verbatimAssoc tag => rw [methodLeaves_cons_verbatim]; exact ih

/-- The function `process_item` preserves the File/Impl-zero invariant. -/
theorem process_item_good (it : Item) (parent p : RP.ComplexityNode)
    (hp : Spec.goodNode parent = true)
    (h : RP.process_item it parent = .ok p) : Spec.goodNode p = true := by
  cases it with
  | fnI ident block =>
    simp only [RP.process_item, RP.process_item_fn, RP.GenOutcome.ok.injEq] at h
    subst h
    simp [goodNode_add_child, hp, RP.ComplexityNode.new,
      RP.ComplexityNode.with_complexity, goodNode_leaf_fn]
  | implI ty iitems =>
    cases ty with
    | pathT hseg segs =>
      rw [show RP.process_item (.implI (.pathT hseg segs) iitems) parent
            = RP.process_item_impl (.pathT hseg segs) iitems parent from rfl,
        process_item_impl_named] at h
      simp only [RP.GenOutcome.ok.injEq] at h
      subst h
      simp [goodNode_add_child, hp, Spec.goodNode, goodChildren_methodLeaves]
    | tupleT tags =>
      simp [RP.process_item, RP.process_item_impl, RP.get_impl_resolved_name] at h
    | otherT tag =>
      simp [RP.process_item, RP.process_item_impl, RP.get_impl_resolved_name] at h
  | extCrateI ident ren => simp_all [RP.process_item]
  | useI t => simp_all [RP.process_item]
  | staticI i ty e => simp_all [RP.process_item]
  | constItemI i ty e => simp_all [RP.process_item]
  | modI i c => simp_all [RP.process_item]
  | foreignModI l => simp_all [RP.process_item]
  | typeI t => simp_all [RP.process_item]
  | structI t => simp_all [RP.process_item]
  | enumI t => simp_all [RP.process_item]
  | unionI t => simp_all [RP.process_item]
  | traitI t => simp_all [RP.process_item]
  | traitAliasI t => simp_all [RP.process_item]
  | mcrI t => simp_all [RP.process_item]
  | mcr2I t => simp_all [RP.process_item]
  | verbatimI t => simp_all [RP.process_item]

/-- The item loop preserves the File/Impl-zero invariant. -/
theorem process_file_items_good (items : List Item) :
    ∀ (parent p : RP.ComplexityNode), Spec.goodNode parent = true →
      RP.process_file_items items parent = .ok p → Spec.goodNode p = true := by
  induction items with
  | nil =>
    intro parent p hp h
    simp only [RP.process_file_items, RP.GenOutcome.ok.injEq] at h
    subst h
    exact hp
  | cons i rest ih =>
    intro parent p hp h
    simp only [RP.process_file_items] at h
    cases hpi : RP.process_item i parent with
    | ok q =>
      rw [hpi] at h
      exact ih q p (process_item_good i parent q hp hpi) h
    | errE e =>
      rw [hpi] at h
      exact absurd h (by simp)
    | panicked =>
      rw [hpi] at h
      exact absurd h (by simp)

/-- C10: in every tree the generator returns, each File-kind and Impl-kind
node carries complexity exactly 0 (only Fn and Method leaves ever get a
`with_complexity`). -/
theorem file_impl_zero_complexity (f : SynFile) (lbl : String)
    (t : RP.ComplexityTree) (h : RP.generate f lbl = .ok t) :
    Spec.goodNode t.root = true := by
  unfold RP.generate at h
  cases hpf : RP.process_file_items f.items (RP.ComplexityNode.new lbl .File) with
  | ok root =>
    rw [hpf] at h
    simp only [RP.GenOutcome.ok.injEq] at h
    subst h
    exact process_file_items_good f.items _ root
      (by simp [RP.ComplexityNode.new, Spec.goodNode, Spec.goodChildren]) hpf
  | errE e =>
    rw [hpf] at h
    exact absurd h (by simp)
  | panicked =>
    rw [hpf] at h
    exact absurd h (by simp)

/-- C10, witness: the invariant evaluated on the tree generated for a
one-function file. -/
theorem file_impl_zero_complexity_witness :
    Spec.goodNode (RP.ComplexityNode.mk ("lbl") .File 0 [.mk ("f") .Fn 0 []]) = true :=
  file_impl_zero_complexity ⟨[.fnI ("f") []]⟩ ("lbl")
    ⟨.mk ("lbl") .File 0 [.mk ("f") .Fn 0 []]⟩ rfl

/-- The function `process_item` never produces the error-return outcome: the only failure
the impl arm can produce is a panic. -/
theorem process_item_no_err (it : Item) (parent : RP.ComplexityNode)
    (e : RP.ParseError) : RP.process_item it parent ≠ .errE e := by
  cases it with
  | implI ty iitems =>
    cases ty <;>
      simp [RP.process_item, RP.process_item_impl, RP.get_impl_resolved_name]
  | fnI ident block => simp [RP.process_item]
  | extCrateI ident ren => simp [RP.process_item]
  | useI t => simp [RP.process_item]
  | staticI i ty ex => simp [RP.process_item]
  | constItemI i ty ex => simp [RP.process_item]
  | modI i c => simp [RP.process_item]
  | foreignModI l => simp [RP.process_item]
  | typeI t => simp [RP.process_item]
  | structI t => simp [RP.process_item]
  | enumI t => simp [RP.process_item]
  | unionI t => simp [RP.process_item]
  | traitI t => simp [RP.process_item]
  | traitAliasI t => simp [RP.process_item]
  | mcrI t => simp [RP.process_item]
  | mcr2I t => simp [RP.process_item]
  | verbatimI t => simp [RP.process_item]

theorem process_file_items_no_err (items : List Item) :
    ∀ (parent : RP.ComplexityNode) (e : RP.ParseError),
      RP.process_file_items items parent ≠ .errE e := by
  induction items with
  | nil => intro parent e; simp [RP.process_file_items]
  | cons i rest ih =>
    intro parent e
    simp only [RP.process_file_items]
    cases hpi : RP.process_item i parent with
    | ok q => exact ih q e
    | errE e2 => exact absurd hpi (process_item_no_err i parent e2)
    | panicked => simp

/-- An impl item whose self-type is not a named path makes `process_item`
panic. -/
theorem bad_impl_item_panics (ty : Typ) (iitems : List ImplItem)
    (hty : Spec.isNamedPathTyp ty = false) (parent : RP.ComplexityNode) :
    RP.process_item (.implI ty iitems) parent = .panicked := by
  cases ty with
  | pathT hseg segs => simp [Spec.isNamedPathTyp] at hty
  | tupleT tags => simp [RP.process_item, RP.process_item_impl, RP.get_impl_resolved_name]
  | otherT tag => simp [RP.process_item, RP.process_item_impl, RP.get_impl_resolved_name]

theorem process_file_items_panics (items : List Item) :
    ∀ (parent : RP.ComplexityNode),
      (∃ ty iitems, Item.implI ty iitems ∈ items ∧ Spec.isNamedPathTyp ty = false) →
      RP.process_file_items items parent = .panicked := by
  induction items with
  | nil =>
    rintro parent ⟨ty, ii, hmem, -⟩
    cases hmem
  | cons i rest ih =>
    rintro parent ⟨ty, ii, hmem, hty⟩
    rcases List.mem_cons.mp hmem with hi | hmem2
    · simp only [RP.process_file_items]
      rw [← hi, bad_impl_item_panics ty ii hty parent]
    · simp only [RP.process_file_items]
      cases hpi : RP.process_item i parent with
      | ok q => exact ih q ⟨ty, ii, hmem2, hty⟩
      | errE e2 => exact absurd hpi (process_item_no_err i parent e2)
      | panicked => rfl

/-- C4, amended: when a file contains an `impl` whose self-type is not a
simple named path, the whole generation aborts — but by a panic (the
`.ok().unwrap()` at `rust_parser.rs:99` discards the constructed
name-resolution `ParseError`), not by returning the error: `generate` never
returns an `Err` on any parsed file.  No partial tree is produced either
way. -/
theorem impl_name_failure_amended :
    (∀ (f : SynFile) (lbl : String),
      (∃ ty iitems, Item.implI ty iitems ∈ f.items ∧ Spec.isNamedPathTyp ty = false) →
      RP.generate f lbl = .panicked)
  ∧ (∀ (f : SynFile) (lbl : String) (e : RP.ParseError),
      RP.generate f lbl ≠ .errE e) := by
  constructor
  · intro f lbl hex
    unfold RP.generate
    rw [process_file_items_panics f.items (RP.ComplexityNode.new lbl .File) hex]
  · intro f lbl e h
    unfold RP.generate at h
    cases hpf : RP.process_file_items f.items (RP.ComplexityNode.new lbl .File) with
    | ok root => rw [hpf] at h; exact absurd h (by simp)
    | errE e2 => exact absurd hpf (process_file_items_no_err f.items _ e2)
    | panicked => rw [hpf] at h; exact absurd h (by simp)

/-- C4, counterexample: on `impl` over a tuple type, `generate` panics; it
does not return the `NoMatches` ("Identifier not found for impl") error the
claim says is propagated to its caller. -/
theorem impl_name_failure_counterexample :
    RP.generate ⟨[.implI (.tupleT []) []]⟩ "f" = .panicked
  ∧ RP.generate ⟨[.implI (.tupleT []) []]⟩ "f"
      ≠ .errE ⟨.NoMatches, some ("Identifier not found for impl"), none⟩ := by
  refine ⟨rfl, fun h => ?_⟩
  rw [show RP.generate ⟨[.implI (.tupleT []) []]⟩ "f" = .panicked from rfl] at h
  exact RP.GenOutcome.noConfusion h

/-- C4, witness for the amended theorem at a concrete input. -/
theorem impl_name_failure_amended_witness :
    RP.generate ⟨[.implI (.otherT 7) []]⟩ "x" = .panicked :=
  impl_name_failure_amended.1 ⟨[.implI (.otherT 7) []]⟩ "x"
    ⟨.otherT 7, [], List.Mem.head _, rfl⟩

theorem renderPath_cons (path : String) (k : RP.ComplexityNodeKind) (nm : String)
    (rest : List (RP.ComplexityNodeKind × String)) :
    Spec.renderPath path ((k, nm) :: rest)
      = Spec.renderPath (Spec.extendPath path k nm) rest := rfl

mutual
theorem displayLines_eq (node : RP.ComplexityNode) (path : String) :
    Main.displayLines node path = (Spec.leafPaths node).map (Spec.fmtLeaf path) := by
  match node with
  | .mk nm k cx [] =>
    simp [Main.displayLines, Spec.leafPaths, Spec.fmtLeaf, renderPath_cons,
      Spec.renderPath, Spec.extendPath]
  | .mk nm k cx (c :: cs) =>
    rw [show Main.displayLines (.mk nm k cx (c :: cs)) path
        = Main.displayList (c :: cs) (Spec.extendPath path k nm) from rfl]
    rw [displayList_eq (c :: cs) (Spec.extendPath path k nm)]
    rw [show Spec.leafPaths (.mk nm k cx (c :: cs))
        = (Spec.leafPathsList (c :: cs)).map (fun p => ((k, nm) :: p.1, p.2)) from rfl]
    rw [List.map_map]
    exact List.map_congr_left (fun p _ => by
      simp [Spec.fmtLeaf, renderPath_cons])

theorem displayList_eq (nodes : List RP.ComplexityNode) (path : String) :
    Main.displayList nodes path = (Spec.leafPathsList nodes).map (Spec.fmtLeaf path) := by
  match nodes with
  | [] => rfl
  | c :: rest =>
    rw [show Main.displayList (c :: rest) path
        = Main.displayLines c path ++ Main.displayList rest path from rfl]
    rw [show Spec.leafPathsList (c :: rest)
        = Spec.leafPaths c ++ Spec.leafPathsList rest from rfl]
    rw [List.map_append, displayLines_eq c path, displayList_eq rest path]
end

/-- C7: the reporter prints exactly one line per leaf of the tree, labelled
with the leaf's full ancestry path `Kind: name > ... > Kind: name` and its
complexity; nodes with children print no line of their own; and the whole
report is the root File node's name as a header line, the leaf lines of the
root's children, and a final blank line. -/
theorem reporter_leaf_lines :
    (∀ (node : RP.ComplexityNode) (path : String),
      Main.displayLines node path = (Spec.leafPaths node).map (Spec.fmtLeaf path))
  ∧ (∀ root : RP.ComplexityNode,
      Main.display_complexity root
        = ("File: " ++ root.name)
            :: (Spec.leafPathsList root.children).map (Spec.fmtLeaf ("")) ++ [""]) := by
  refine ⟨displayLines_eq, fun root => ?_⟩
  rw [Main.display_complexity, displayList_eq]

/-- Applying `checked_update` to an already-registered vertex: the edge is still
pushed, the vertex set is unchanged, and the result is not-new. -/
theorem agp_cu_seen (g : AGP.ASTGraph) (node parent : Nat) (h : node ∈ g.nodes) :
    AGP.checked_update g node parent
      = (false, ⟨g.nodes, g.edges ++ [(parent, node)]⟩) := by
  simp only [AGP.checked_update]
  rw [if_pos h]

/-- C5: for every visited syntax node, `checked_update` pushes the
parent→self edge unconditionally (even when the vertex already existed) and
returns novelty — whether the vertex id was previously absent; an item whose
vertex is already registered contributes exactly that one edge and nothing
else (no recursion into children).  The counter-based builder's
`checked_update` likewise always increments the edge counter and reports
novelty of the hash. -/
theorem edge_always_novelty_gate :
    (∀ (g : AGP.ASTGraph) (node parent : Nat),
      (AGP.checked_update g node parent).2.edges = g.edges ++ [(parent, node)]
        ∧ ((AGP.checked_update g node parent).1 = true ↔ node ∉ g.nodes))
  ∧ (∀ (g : AGP.ASTGraph) (ast : Item) (parent : Nat),
      get_node (.itemK ast) ∈ g.nodes →
      AGP.parse_item g ast parent
        = ⟨g.nodes, g.edges ++ [(parent, get_node (.itemK ast))]⟩)
  ∧ (∀ (g : Cyc.ASTGraph) (k : HKey),
      (Cyc.checked_update g k).2.edges = g.edges + 1
        ∧ ((Cyc.checked_update g k).1 = true ↔ get_node k ∉ g.visited)) := by
  refine ⟨fun g node parent => ?_, fun g ast parent h => ?_, fun g k => ?_⟩
  · by_cases h : node ∈ g.nodes <;> simp [AGP.checked_update, h]
  · cases ast <;>
      (rw [AGP.parse_item, agp_cu_seen g _ parent h] <;> first | rfl | simp)
  · by_cases h : get_node k ∈ g.visited <;> simp [Cyc.checked_update, h]

/-- C5, witness: a vertex already in the set gets its edge recorded but is
not expanded. -/
theorem edge_always_novelty_gate_witness :
    AGP.parse_item ⟨[get_node (.itemK (.structI 0))], []⟩ (.structI 0) 0
      = ⟨[get_node (.itemK (.structI 0))], [(0, get_node (.itemK (.structI 0)))]⟩ :=
  edge_always_novelty_gate.2.1 ⟨[get_node (.itemK (.structI 0))], []⟩ (.structI 0) 0
    (List.Mem.head _)

/-- C3, counterexample: for `use a;` the counter-based builder yields
`edges = 2` (not 1), for `use a::b;` it yields `nodes = 2` (not 3) — the
use-path is never traversed (`parse_use_tree` is a stub) — and the edge-list
builder yields 3 nodes and 3 edges for `use a;` (not 2 and 1). -/
theorem use_chain_counterexample :
    (¬ ((Cyc.ASTGraph.new ⟨[.useI (.nameT ("a"))]⟩).nodes = 2
        ∧ (Cyc.ASTGraph.new ⟨[.useI (.nameT ("a"))]⟩).edges = 1))
  ∧ (¬ ((Cyc.ASTGraph.new ⟨[.useI (.path ("a") (.nameT ("b")))]⟩).nodes = 3
        ∧ (Cyc.ASTGraph.new ⟨[.useI (.path ("a") (.nameT ("b")))]⟩).edges = 2))
  ∧ (¬ ((AGP.ASTGraph.new ⟨[.useI (.nameT ("a"))]⟩).nodes.length = 2
        ∧ (AGP.ASTGraph.new ⟨[.useI (.nameT ("a"))]⟩).edges.length = 1)) := by
  decide

/-- C3, amended: a file containing a single `use` declaration always yields
nodes = 2, edges = 2, components = 1 in the counter-based builder (and 3
registered vertices and 3 edges in the edge-list builder), whatever the
use-path is: additional `::segment`s add no node and no edge, because the
use-tree is never recursed into. -/
theorem use_chain_amended :
    (∀ t : UseTree,
      (Cyc.ASTGraph.new ⟨[.useI t]⟩).nodes = 2
        ∧ (Cyc.ASTGraph.new ⟨[.useI t]⟩).edges = 2
        ∧ (Cyc.ASTGraph.new ⟨[.useI t]⟩).connected_components = 1)
  ∧ (∀ t : UseTree,
      (AGP.ASTGraph.new ⟨[.useI t]⟩).nodes.length = 3
        ∧ (AGP.ASTGraph.new ⟨[.useI t]⟩).edges.length = 3) := by
  constructor <;> intro t
  · simp [Cyc.ASTGraph.new, Cyc.parse_file, Cyc.parse_item, Cyc.checked_update,
      Cyc.parse_item_use, Cyc.parse_use_tree, get_node, Nat.pair_eq_pair]
  · rw [AGP.ASTGraph.new, AGP.parse_file]
    simp [AGP.parse_items, AGP.parse_item, AGP.checked_update, get_node,
      Nat.pair_eq_pair]

theorem cyc_cu_cc (g : Cyc.ASTGraph) (k : HKey) :
    (Cyc.checked_update g k).2.connected_components = g.connected_components := by
  by_cases h : get_node k ∈ g.visited <;> simp [Cyc.checked_update, h]

theorem cyc_piec_cc (g : Cyc.ASTGraph) (ident : String) (ren : Option String) :
    (Cyc.parse_item_ext_crate g ident ren).connected_components
      = g.connected_components := by
  simp only [Cyc.parse_item_ext_crate]
  split
  · split <;> simp [cyc_cu_cc]
  · simp [cyc_cu_cc]

theorem cyc_piu_cc (g : Cyc.ASTGraph) (t : UseTree) :
    (Cyc.parse_item_use g t).connected_components = g.connected_components := by
  simp only [Cyc.parse_item_use, Cyc.parse_use_tree]
  split <;> simp [cyc_cu_cc]

theorem cyc_pis_cc (g : Cyc.ASTGraph) (ident : String) (ty : Typ) (e : Expr) :
    (Cyc.parse_item_static g ident ty e).connected_components
      = g.connected_components := by
  simp only [Cyc.parse_item_static, Cyc.parse_type, Cyc.parse_expr]
  split <;> simp [cyc_cu_cc]

theorem cyc_pic_cc (g : Cyc.ASTGraph) (ident : String) (ty : Typ) (e : Expr) :
    (Cyc.parse_item_const g ident ty e).connected_components
      = g.connected_components := by
  simp only [Cyc.parse_item_const, Cyc.parse_type, Cyc.parse_expr]
  split <;> simp [cyc_cu_cc]

theorem cyc_pif_cc (g : Cyc.ASTGraph) (ident : String) (b : Block) :
    (Cyc.parse_item_fn g ident b).connected_components = g.connected_components := by
  simp only [Cyc.parse_item_fn, Cyc.parse_block]
  split <;> simp [cyc_cu_cc]

/-- The function `parse_item` never touches the component counter. -/
theorem cyc_parse_item_cc (g : Cyc.ASTGraph) (ast : Item) :
    (Cyc.parse_item g ast).connected_components = g.connected_components := by
  simp only [Cyc.parse_item]
  split
  · split <;>
      simp [cyc_piec_cc, cyc_piu_cc, cyc_pis_cc, cyc_pic_cc, cyc_pif_cc, cyc_cu_cc]
  · simp [cyc_cu_cc]

theorem cyc_fold_cc (items : List Item) :
    ∀ g : Cyc.ASTGraph,
      (items.foldl
          (fun g item =>
            Cyc.parse_item ⟨g.connected_components + 1, g.nodes, g.edges, g.visited⟩ item)
          g).connected_components
        = g.connected_components + items.length := by
  induction items with
  | nil => intro g; simp
  | cons i rest ih =>
    intro g
    rw [List.foldl_cons, ih, cyc_parse_item_cc]
    simp only [List.length_cons]
    push_cast
    omega

/-- The counter `connected_components` is exactly the number of top-level items. -/
theorem cyc_parse_file_cc (f : SynFile) (g : Cyc.ASTGraph) :
    (Cyc.parse_file g f).connected_components
      = g.connected_components + f.items.length :=
  cyc_fold_cc f.items g

/-- C1, amended: the counter-based computation (`cyclomatic.rs`) does return
`edges − nodes + 2 × connected_components` with `connected_components` equal
to the number of top-level items, for every file; but the edge-list
computation (`calculator.rs` `Graph::calculate_complexity`) returns
`edges − nodes + 2 × exit_count`, where `exit_count` counts the vertices
with no outgoing edge — not the number of top-level items. -/
theorem graph_formula_amended :
    (∀ f : SynFile,
      Cyc.calculate_complexity f
        = (Cyc.ASTGraph.new f).edges - (Cyc.ASTGraph.new f).nodes
            + 2 * (f.items.length : Int))
  ∧ (∀ f : SynFile,
      (Cyc.ASTGraph.new f).connected_components = (f.items.length : Int))
  ∧ (∀ g : Calc.Graph,
      Calc.calculate_complexity g
        = (g.edges.length : Int) - ((Calc.nodeSet g).length : Int)
            + 2 * ((Calc.exitSet g).length : Int)) := by
  have hcc : ∀ f : SynFile,
      (Cyc.ASTGraph.new f).connected_components = (f.items.length : Int) := by
    intro f
    have := cyc_parse_file_cc f ⟨0, 0, 0, []⟩
    simpa [Cyc.ASTGraph.new] using this
  refine ⟨fun f => ?_, hcc, fun g => rfl⟩
  simp only [Cyc.calculate_complexity]
  rw [hcc f]

/-- C1, counterexample: for the single-item file `mod m { use a; use b; }`,
the `calculator.rs` pipeline yields complexity 3 from 7 edges and 8 vertices,
whereas `edges − nodes + 2 × top_level_items = 7 − 8 + 2·1 = 1`. -/
theorem graph_formula_counterexample :
    Calc.calculate Spec.modFile = 3
  ∧ (Calc.astGraphParserParse Spec.modFile).edges.length = 7
  ∧ (Calc.nodeSet (Calc.astGraphParserParse Spec.modFile)).length = 8
  ∧ Spec.modFile.items.length = 1
  ∧ Calc.calculate Spec.modFile
      ≠ ((Calc.astGraphParserParse Spec.modFile).edges.length : Int)
          - ((Calc.nodeSet (Calc.astGraphParserParse Spec.modFile)).length : Int)
          + 2 * (Spec.modFile.items.length : Int) := by
  decide

/-- C8: the embedded builders are deterministic — the structural hash of the
same subtree is the same value, and re-running any builder on the same parsed
file yields the same graph counts and the same tree. -/
theorem builder_determinism :
    (∀ k : HKey, get_node k = get_node k)
  ∧ (∀ f : SynFile, Cyc.ASTGraph.new f = Cyc.ASTGraph.new f)
  ∧ (∀ f : SynFile,
      (AGP.ASTGraph.new f).nodes = (AGP.ASTGraph.new f).nodes
        ∧ (AGP.ASTGraph.new f).edges = (AGP.ASTGraph.new f).edges)
  ∧ (∀ (f : SynFile) (lbl : String), RP.generate f lbl = RP.generate f lbl) :=
  ⟨fun _ => rfl, fun _ => rfl, fun _ => ⟨rfl, rfl⟩, fun _ _ => rfl⟩

end Cy
